import Mathlib

/-
Verification development for the MuLyCue core: a shallow embedding of the
chord model (src/backend/models/chord.py), the song/sync engine
(src/backend/models/song.py, src/backend/core/sync_engine.py), the
setlist/queue scheduler (src/backend/core/queue_manager.py,
src/backend/models/setlist.py) and the websocket broadcaster
(src/backend/core/websocket_manager.py).

Python floats are modelled as Rat, Python ints as Nat/Int, Python strings as
Lean String (manipulated through List Char where the source manipulates the
text character-wise).  Fallible code returns Option; code that may raise is
embedded in Except.  asyncio tasks are modelled by integer task ids: a
spawned task id is appended to a list of live ids, and cancelling removes it;
overwriting a task reference without cancelling leaves the old id live,
exactly mirroring asyncio semantics at the level the claims speak about.
-/

namespace MLC

/-! ## Chord model (src/backend/models/chord.py) -/

/-- The 12 pitch classes, mirroring the Python `ChordRoot` enum. -/
inductive ChordRoot
| C | Cs | D | Ds | E | F | Fs | G | Gs | A | As | B
deriving DecidableEq

/-- Enum value, as in Python (`ChordRoot.C.value = 0` ...). -/
def ChordRoot.value : ChordRoot → Nat
| .C => 0 | .Cs => 1 | .D => 2 | .Ds => 3 | .E => 4 | .F => 5
| .Fs => 6 | .G => 7 | .Gs => 8 | .A => 9 | .As => 10 | .B => 11

/-- Source `ChordRoot(n)` for `n` already reduced mod 12 (all call sites reduce
mod 12 first, as the Python code does). -/
def ChordRoot.ofValue (n : Nat) : ChordRoot :=
  match n % 12 with
  | 0 => .C | 1 => .Cs | 2 => .D | 3 => .Ds | 4 => .E | 5 => .F
  | 6 => .Fs | 7 => .G | 8 => .Gs | 9 => .A | 10 => .As | _ => .B

/-- Source `sharp_name`: the enum name with `s` replaced by `#`. -/
def ChordRoot.sharp_name : ChordRoot → String
| .C => ("C") | .Cs => ("C#") | .D => ("D") | .Ds => ("D#") | .E => ("E")
| .F => ("F") | .Fs => ("F#") | .G => ("G") | .Gs => ("G#") | .A => ("A")
| .As => ("A#") | .B => ("B")

/-- Source `flat_name`: flat spelling for the five accidentals, else the name. -/
def ChordRoot.flat_name : ChordRoot → String
| .C => ("C") | .Cs => ("Db") | .D => ("D") | .Ds => ("Eb") | .E => ("E")
| .F => ("F") | .Fs => ("Gb") | .G => ("G") | .Gs => ("Ab") | .A => ("A")
| .As => ("Bb") | .B => ("B")

/-- Python `str.strip()` on a character list (leading and trailing
whitespace removed). -/
def pyStrip (cs : List Char) : List Char :=
  ((cs.dropWhile Char.isWhitespace).reverse.dropWhile Char.isWhitespace).reverse

/-- Source `ChordRoot.from_string`: strip, upper-case, then look up the note map. -/
def ChordRoot.fromChars (cs : List Char) : Option ChordRoot :=
  match (pyStrip cs).map Char.toUpper with
  | ['C'] => some .C
  | ['C', '#'] => some .Cs
  | ['D', 'B'] => some .Cs
  | ['D'] => some .D
  | ['D', '#'] => some .Ds
  | ['E', 'B'] => some .Ds
  | ['E'] => some .E
  | ['F'] => some .F
  | ['F', '#'] => some .Fs
  | ['G', 'B'] => some .Fs
  | ['G'] => some .G
  | ['G', '#'] => some .Gs
  | ['A', 'B'] => some .Gs
  | ['A'] => some .A
  | ['A', '#'] => some .As
  | ['B', 'B'] => some .As
  | ['B'] => some .B
  | _ => none

/-- Source `ChordRoot.from_string` on a Lean string. -/
def ChordRoot.from_string (s : String) : Option ChordRoot :=
  ChordRoot.fromChars s.data

/-- A chord: root, verbatim quality suffix, optional slash bass. -/
structure Chord where
  root : ChordRoot
  suffix : String
  bass : Option ChordRoot
deriving DecidableEq

/-- Source `Chord.transpose`: root and bass move by `semitones` mod 12 (Python `%`
on ints, hence `Int.emod`), suffix preserved. -/
def Chord.transpose (c : Chord) (semitones : Int) : Chord :=
  { root := ChordRoot.ofValue (((c.root.value : Int) + semitones).emod 12).toNat
    suffix := c.suffix
    bass := c.bass.map
      (fun b => ChordRoot.ofValue (((b.value : Int) + semitones).emod 12).toNat) }

/-- Source `Chord.to_string`: root name (sharp or flat), suffix, `/bass` if any. -/
def Chord.to_string (c : Chord) (prefer_sharp : Bool) : String :=
  let root_name := if prefer_sharp then c.root.sharp_name else c.root.flat_name
  let base := root_name ++ c.suffix
  match c.bass with
  | some b =>
      base ++ ("/") ++ (if prefer_sharp then b.sharp_name else b.flat_name)
  | none => base

/-- Split a character list at its first `/`; `none` when there is no `/`. -/
def splitFirstSlash : List Char → Option (List Char × List Char)
| [] => none
| c :: cs =>
  if c = '/' then some ([], cs)
  else
    match splitFirstSlash cs with
    | none => none
    | some (a, b) => some (c :: a, b)

/-- Does a character list match the bass group `[A-G][#b]?` exactly? -/
def bassOk : List Char → Bool
| [c] => decide ('A' ≤ c) && decide (c ≤ 'G')
| [c, a] =>
    (decide ('A' ≤ c) && decide (c ≤ 'G')) && (decide (a = '#') || decide (a = 'b'))
| _ => false

/-- The anchored regex `^([A-G][#b]?)([^/]*?)(?:/([A-G][#b]?))?$` of
`Chord.from_string`, made deterministic: the root letter must be an
uppercase `A`..`G`, an immediately following `#` or `b` joins the root, the
lazy suffix can never contain `/`, so the string splits at its first `/`
(if any) and the remainder must be exactly the bass group. -/
def matchRegex (cs : List Char) :
    Option (List Char × List Char × Option (List Char)) :=
  match cs with
  | [] => none
  | c :: rest =>
    if decide ('A' ≤ c) && decide (c ≤ 'G') then
      let rootAndRest : List Char × List Char :=
        match rest with
        | a :: rs => if a = '#' || a = 'b' then ([c, a], rs) else ([c], rest)
        | [] => ([c], [])
      match splitFirstSlash rootAndRest.2 with
      | none => some (rootAndRest.1, rootAndRest.2, none)
      | some (sfx, bassCs) =>
          if bassOk bassCs then some (rootAndRest.1, sfx, some bassCs) else none
    else none

/-- Source `Chord.from_string` on a character list: strip, match the regex, parse
root and bass through `ChordRoot.from_string`, keep the suffix verbatim. -/
def Chord.fromChars (cs : List Char) : Option Chord :=
  match matchRegex (pyStrip cs) with
  | none => none
  | some (rootCs, sfxCs, bassCs?) =>
    match ChordRoot.fromChars rootCs with
    | none => none
    | some root =>
      match bassCs? with
      | none => some { root := root, suffix := String.mk sfxCs, bass := none }
      | some bcs =>
        match ChordRoot.fromChars bcs with
        | none => none
        | some bass => some { root := root, suffix := String.mk sfxCs, bass := some bass }

/-- Source `Chord.from_string` on a Lean string. -/
def Chord.from_string (s : String) : Option Chord :=
  Chord.fromChars s.data

/-! ## Song model (src/backend/models/song.py) -/

/-- Python `str.split()` (no separator): split on runs of whitespace,
dropping empty pieces. -/
def pySplit : List Char → List Char → List (List Char)
| [], acc => if acc = [] then [] else [acc.reverse]
| c :: cs, acc =>
  if Char.isWhitespace c then
    if acc = [] then pySplit cs [] else acc.reverse :: pySplit cs []
  else pySplit cs (c :: acc)

/-- One token of `Song._transpose_chord_string`: parse, transpose and render
it, or keep it verbatim when parsing fails. -/
def transposeToken (t : Int) (prefer_sharp : Bool) (tok : List Char) : List Char :=
  match Chord.fromChars tok with
  | some c => ((c.transpose t).to_string prefer_sharp).data
  | none => tok

/-- Source `Song._transpose_chord_string`: `None`/empty in, `None` out; otherwise
split on whitespace, transform each token (appending to a growing list, as
the Python `for` loop does) and re-join with single spaces. -/
def transpose_chord_string (t : Int) (prefer_sharp : Bool)
    (chord_str : Option String) : Option String :=
  match chord_str with
  | none => none
  | some s =>
    if s.data = [] then none
    else
      let toks := pySplit s.data []
      let transposed :=
        toks.foldl (fun acc tok => acc ++ [transposeToken t prefer_sharp tok]) []
      some (String.mk (List.intercalate ([' ']) transposed))

/-- A timed lyric entry, as stored in a section's `entries` list. -/
structure Entry where
  word : Option String
  start_time : Rat
  end_time : Rat
  chords : Option String
deriving DecidableEq

/-- A named, time-bounded section of a song. -/
structure SongSection where
  name : String
  order : Nat
  start_time : Rat
  end_time : Rat
  entries : List Entry
deriving DecidableEq

/-- The value `get_entry_at_time` returns: the entry dict augmented with the
enclosing section's name (`{**entry, "section": section["name"]}`). -/
structure EntryHit where
  entry : Entry
  sectionName : String
deriving DecidableEq

/-- The part of a `Song` the sync engine reads: sections and effective BPM. -/
structure Song where
  sections : List SongSection
  bpm : Nat
deriving DecidableEq

/-- Source `Song.get_entry_at_time`: scan sections in order; inside a section whose
range contains `t`, return the first entry whose range contains `t`; if a
section matches but no entry does, scanning continues with later sections. -/
def Song.get_entry_at_time (song : Song) (t : Rat) : Option EntryHit :=
  song.sections.findSome? (fun s =>
    if s.start_time ≤ t ∧ t ≤ s.end_time then
      (s.entries.find?
        (fun e => decide (e.start_time ≤ t) && decide (t ≤ e.end_time))).map
        (fun e => { entry := e, sectionName := s.name })
    else none)

/-- Source `Song.get_section_at_time`: first section whose range contains `t`. -/
def Song.get_section_at_time (song : Song) (t : Rat) : Option SongSection :=
  song.sections.find?
    (fun s => decide (s.start_time ≤ t) && decide (t ≤ s.end_time))

/-! ## Sync engine (src/backend/core/sync_engine.py) -/

/-- The sync engine's mutable fields. -/
structure SyncState where
  current_position : Rat
  current_entry : Option EntryHit
  current_section : Option SongSection
  current_beat : Nat
  last_beat_time : Rat
deriving DecidableEq

/-- Observer notifications issued by `SyncEngine.update`.  The entry/section
payloads are `Option`s because the Python callbacks receive whatever value
stands in the local variable at call time; the guard `if cb and entry` is
modelled explicitly below. -/
inductive SyncEvent
| entryChange (e : Option EntryHit)
| sectionChange (s : Option SongSection)
| beat (n : Nat)
deriving DecidableEq

/-- Source `SyncEngine.update` with always-registered observers, recording the
callback invocations as an event list.  The entry (resp. section) callback
fires only when the recomputed value differs from the stored one and is not
`None`; the beat counter advances when a full beat duration has elapsed. -/
def SyncEngine.update (song : Song) (st : SyncState) (position : Rat) :
    SyncState × List SyncEvent :=
  let entry := song.get_entry_at_time position
  let newEntry := if entry = st.current_entry then st.current_entry else entry
  let evE : List SyncEvent :=
    if entry = st.current_entry then []
    else if entry.isSome then [SyncEvent.entryChange entry] else []
  let sect := song.get_section_at_time position
  let newSect := if sect = st.current_section then st.current_section else sect
  let evS : List SyncEvent :=
    if sect = st.current_section then []
    else if sect.isSome then [SyncEvent.sectionChange sect] else []
  let beat_duration : Rat := 60 / (song.bpm : Rat)
  let fired := decide (beat_duration ≤ position - st.last_beat_time)
  let newBeat := if fired then (st.current_beat + 1) % 4 else st.current_beat
  let evB : List SyncEvent := if fired then [SyncEvent.beat (newBeat + 1)] else []
  ({ current_position := position
     current_entry := newEntry
     current_section := newSect
     current_beat := newBeat
     last_beat_time := if fired then position else st.last_beat_time },
   evE ++ evS ++ evB)

/-- Source `SyncEngine.update` with fallible observer callbacks.  The Python method
wraps no `try`/`except` around the callback calls, so a raised exception
aborts the rest of the position processing: the embedding sequences the
steps in `Except`, each callback's failure short-circuiting the rest. -/
def SyncEngine.updateCb (song : Song) (onE : EntryHit → Except String Unit)
    (onS : SongSection → Except String Unit) (onB : Nat → Except String Unit)
    (st : SyncState) (position : Rat) : Except String SyncState :=
  let st0 := { st with current_position := position }
  let entry := song.get_entry_at_time position
  let step1 : Except String SyncState :=
    if entry = st0.current_entry then Except.ok st0
    else
      let st1 := { st0 with current_entry := entry }
      match entry with
      | some e => (onE e).map (fun _ => st1)
      | none => Except.ok st1
  match step1 with
  | Except.error m => Except.error m
  | Except.ok st1 =>
    let sect := song.get_section_at_time position
    let step2 : Except String SyncState :=
      if sect = st1.current_section then Except.ok st1
      else
        let st2 := { st1 with current_section := sect }
        match sect with
        | some s => (onS s).map (fun _ => st2)
        | none => Except.ok st2
    match step2 with
    | Except.error m => Except.error m
    | Except.ok st2 =>
      let beat_duration : Rat := 60 / (song.bpm : Rat)
      if beat_duration ≤ position - st2.last_beat_time then
        let st3 := { st2 with last_beat_time := position
                              current_beat := (st2.current_beat + 1) % 4 }
        (onB (st3.current_beat + 1)).map (fun _ => st3)
      else Except.ok st2

/-! ## Event sink (src/backend/core/websocket_manager.py) -/

/-- Source `WebSocketManager.broadcast`, with connections as integer ids and the
per-connection delivery modelled by `send` (which may fail, standing for a
raised exception inside `send_text`).  Each failure is caught; the failing
connection is collected and afterwards removed from the active list by
`disconnect` (Python `list.remove`, i.e. `List.erase`).  The function
returns the active connections that remain. -/
def WebSocketManager.broadcast (send : Nat → Except String Unit)
    (conns : List Nat) : List Nat :=
  let disconnected := conns.foldl
    (fun acc c =>
      match send c with
      | Except.ok _ => acc
      | Except.error _ => acc ++ [c]) []
  disconnected.foldl (fun act c => act.erase c) conns

/-! ## Setlist model (src/backend/models/setlist.py) -/

/-- Setlist playback settings (`SetlistSettings`). -/
structure SetlistSettings where
  auto_advance : Bool
  gap_seconds : Nat
  loop : Bool
  shuffle : Bool
  countdown : Bool
deriving DecidableEq

/-- A song reference in a setlist (`SetlistSong`). -/
structure SetlistSong where
  id : String
  title : String
  artist : String
  duration : Rat
  notes : Option String
  transpose : Int
  key : Option String
  bpm : Option Nat
deriving DecidableEq

/-- A setlist (`Setlist`); timestamps/tags carry no scheduler behaviour and
are omitted. -/
structure Setlist where
  name : String
  description : Option String
  settings : SetlistSettings
  songs : List SetlistSong
deriving DecidableEq

/-- Python `sum(...)` over a list of numbers: a left fold from `0`. -/
def pySum (l : List Rat) : Rat := l.foldl (· + ·) 0

/-- Source `Setlist.total_duration`: song durations plus `(count-1)·gap` when there
is more than one song; `0.0` for an empty setlist. -/
def Setlist.total_duration (sl : Setlist) : Rat :=
  if sl.songs = [] then 0
  else
    pySum (sl.songs.map (fun s => s.duration)) +
      (if 1 < sl.songs.length
       then ((sl.songs.length - 1) * sl.settings.gap_seconds : Nat)
       else 0)

/-! ## Queue manager (src/backend/core/queue_manager.py)

The mutable fields of `QueueManager`, plus bookkeeping for asyncio tasks:
`auto_advance_task` holds the id the manager's reference points at, and
`live_tasks` holds every spawned task id that has not been cancelled.
`asyncio.create_task` appends a fresh id; `task.cancel()` erases it. -/

structure QueueState where
  setlist : Option Setlist
  current_index : Nat
  is_playing : Bool
  auto_advance_task : Option Nat
  live_tasks : List Nat
  next_task_id : Nat
  shuffle_order : List Nat
deriving DecidableEq

/-- Events the queue manager pushes to the websocket broadcaster. -/
inductive QEvent
| setlist_update
| setlist_finished (total_songs : Nat)
| gap_countdown (remaining : Nat) (next : Option SetlistSong)
deriving DecidableEq

namespace QueueManager

/-- Source `get_actual_index`: identity unless a shuffle order is present.  Python
indexes the shuffle list directly; the `getD` totalizes the (in all
reachable states in-range) lookup. -/
def get_actual_index (st : QueueState) (logical : Nat) : Nat :=
  if st.shuffle_order = [] then logical else st.shuffle_order.getD logical 0

/-- Source `get_current_song`: `None` when no setlist is loaded or
`current_index >= len(songs)`; otherwise the song at the actual index. -/
def get_current_song (st : QueueState) : Option SetlistSong :=
  match st.setlist with
  | none => none
  | some sl =>
    if sl.songs.length ≤ st.current_index then none
    else sl.songs[get_actual_index st st.current_index]?

/-- Source `get_next_song`: the song after the current one, wrapping to logical
index 0 when looping, `None` past the end otherwise. -/
def get_next_song (st : QueueState) : Option SetlistSong :=
  match st.setlist with
  | none => none
  | some sl =>
    let next_index := st.current_index + 1
    if sl.songs.length ≤ next_index then
      if sl.settings.loop then sl.songs[get_actual_index st 0]? else none
    else sl.songs[get_actual_index st next_index]?

/-- Source `load_setlist`: install the setlist, reset index and playing flag, set
the shuffle order (the permutation produced by `random.shuffle` is passed in
as `order`), broadcast a setlist update.  No monitor task is cancelled. -/
def load_setlist (sl : Setlist) (order : List Nat) (st : QueueState) :
    QueueState × List QEvent :=
  ({ st with
      setlist := some sl
      current_index := 0
      is_playing := false
      shuffle_order := if sl.settings.shuffle then order else [] },
   [QEvent.setlist_update])

/-- The `if self.auto_advance_task: cancel; … = None` block shared by
`next_song`, `previous_song`, `jump_to_song` and `stop`. -/
def cancel_auto_advance (st : QueueState) : QueueState :=
  match st.auto_advance_task with
  | some tid =>
      { st with live_tasks := st.live_tasks.erase tid, auto_advance_task := none }
  | none => st

/-- Source `play_current`: no-op without a current song; otherwise set
`is_playing`, and if auto-advance is enabled spawn a fresh monitor task —
overwriting the task reference without cancelling any previous task — then
broadcast a setlist update. -/
def play_current (st : QueueState) : QueueState × List QEvent :=
  match get_current_song st with
  | none => (st, [])
  | some _ =>
    let st1 := { st with is_playing := true }
    let st2 :=
      match st1.setlist with
      | some sl =>
        if sl.settings.auto_advance then
          { st1 with
              live_tasks := st1.next_task_id :: st1.live_tasks
              auto_advance_task := some st1.next_task_id
              next_task_id := st1.next_task_id + 1 }
        else st1
      | none => st1
    (st2, [QEvent.setlist_update])

/-- Source `next_song`: cancel the referenced monitor, bump the index; past the end
either wrap to 0 (loop) and play, or mark the setlist finished; otherwise
play the new current song. -/
def next_song (st : QueueState) : QueueState × List QEvent :=
  match st.setlist with
  | none => (st, [])
  | some sl =>
    let st1 := cancel_auto_advance st
    let st2 := { st1 with current_index := st1.current_index + 1 }
    if sl.songs.length ≤ st2.current_index then
      if sl.settings.loop then
        play_current { st2 with current_index := 0 }
      else
        ({ st2 with is_playing := false },
         [QEvent.setlist_finished sl.songs.length])
    else
      play_current st2

/-- Source `previous_song`: no-op at index 0 or without a setlist; otherwise cancel
the monitor, step back and play. -/
def previous_song (st : QueueState) : QueueState × List QEvent :=
  match st.setlist with
  | none => (st, [])
  | some _ =>
    if st.current_index = 0 then (st, [])
    else
      let st1 := cancel_auto_advance st
      play_current { st1 with current_index := st1.current_index - 1 }

/-- Source `jump_to_song`: bounds-checked (a negative Python index is excluded by
`Nat`); cancel the monitor, set the index, play. -/
def jump_to_song (i : Nat) (st : QueueState) : QueueState × List QEvent :=
  match st.setlist with
  | none => (st, [])
  | some sl =>
    if sl.songs.length ≤ i then (st, [])
    else
      let st1 := cancel_auto_advance st
      play_current { st1 with current_index := i }

/-- Source `stop`: clear the playing flag and cancel the monitor. -/
def stop (st : QueueState) : QueueState :=
  cancel_auto_advance { st with is_playing := false }

/-- Progress snapshot returned by `get_progress`. -/
structure Progress where
  current_index : Nat
  total_songs : Nat
  progress_percent : Int
  elapsed_time : Rat
  total_time : Rat
  remaining_songs : Int
deriving DecidableEq

/-- Source `get_progress`: zeros without a setlist; otherwise elapsed time is the
Python `sum` of the durations of `songs[:current_index]` plus
`current_index * gap_seconds`. -/
def get_progress (st : QueueState) : Progress :=
  match st.setlist with
  | none =>
    { current_index := 0, total_songs := 0, progress_percent := 0
      elapsed_time := 0, total_time := 0, remaining_songs := 0 }
  | some sl =>
    let elapsed_songs := sl.songs.take st.current_index
    let elapsed_time := pySum (elapsed_songs.map (fun s => s.duration))
    let elapsed_gaps : Rat :=
      (st.current_index : Rat) * (sl.settings.gap_seconds : Rat)
    { current_index := st.current_index
      total_songs := sl.songs.length
      progress_percent :=
        if sl.songs = [] then 0
        else (((st.current_index : Rat) / (sl.songs.length : Rat)) * 100).floor
      elapsed_time := elapsed_time + elapsed_gaps
      total_time := sl.total_duration
      remaining_songs := (sl.songs.length : Int) - (st.current_index : Int) - 1 }

end QueueManager

/-- One scheduler command, for stating invariants uniformly. -/
inductive QOp
| load (sl : Setlist) (order : List Nat)
| play
| next
| prev
| jump (i : Nat)
| stop

/-- Dispatch a scheduler command. -/
def stepOp : QOp → QueueState → QueueState × List QEvent
| .load sl order, st => QueueManager.load_setlist sl order st
| .play, st => QueueManager.play_current st
| .next, st => QueueManager.next_song st
| .prev, st => QueueManager.previous_song st
| .jump i, st => QueueManager.jump_to_song i st
| .stop, st => (QueueManager.stop st, [])

/-! ## Monitor loop timing (`_auto_advance_handler` / `_countdown_handler`)

Once the polling loop detects the end-of-song threshold, the remaining
behaviour is straight-line: optional countdown (one event plus a 1-second
sleep per remaining second), a `gap_seconds` sleep, then `next_song`.  It is
modelled as a timed trace relative to the detection instant. -/

/-- The polling interval of `_auto_advance_handler` (`asyncio.sleep(0.1)`). -/
def pollInterval : Rat := 1 / 10

/-- The end-of-song threshold (`0.5s` before the end). -/
def endThreshold : Rat := 1 / 2

/-- The trigger test `duration > 0 and position >= duration - 0.5`. -/
def advance_triggered (position duration : Rat) : Bool :=
  decide (0 < duration) && decide (duration - endThreshold ≤ position)

/-- The `_countdown_handler` loop `for remaining in range(gap, 0, -1)`:
starting at time `t`, emit `gap_countdown remaining next` then sleep one
second. -/
def countdown_events (next : Option SetlistSong) : Nat → Rat → List (Rat × QEvent)
| 0, _ => []
| n + 1, t => (t, QEvent.gap_countdown (n + 1) next) :: countdown_events next n (t + 1)

/-- What `_auto_advance_handler` does after detecting the threshold: the
timed countdown events (when enabled) and the instant, in seconds after
detection, at which `next_song` is invoked (after the countdown plus the
`gap_seconds` sleep). -/
def auto_advance_fire (st : QueueState) : List (Rat × QEvent) × Rat :=
  match st.setlist with
  | none => ([], 0)
  | some sl =>
    let evs :=
      if sl.settings.countdown
      then countdown_events (QueueManager.get_next_song st) sl.settings.gap_seconds 0
      else []
    let cdDur : Rat := if sl.settings.countdown then (sl.settings.gap_seconds : Rat) else 0
    (evs, cdDur + (sl.settings.gap_seconds : Rat))

/-- Did a per-connection delivery succeed? -/
def isOkB : Except String Unit → Bool
| Except.ok _ => true
| Except.error _ => false

/-- Feed a sequence of positions to the sync engine, concatenating the
emitted events (the high-frequency position callback of §5). -/
def runUpdates (song : Song) : SyncState → List Rat → SyncState × List SyncEvent
| st, [] => (st, [])
| st, p :: ps =>
  ((runUpdates song (SyncEngine.update song st p).1 ps).1,
   (SyncEngine.update song st p).2 ++ (runUpdates song (SyncEngine.update song st p).1 ps).2)

/-- How many `entryChange` notifications a trace contains. -/
def countEntryChanges (evs : List SyncEvent) : Nat :=
  (evs.filter (fun ev =>
    match ev with
    | SyncEvent.entryChange _ => true
    | _ => false)).length

/-- The claimed scheduler index invariant: whenever a setlist is loaded and
non-empty, `0 ≤ current_index < len(songs)` (the lower bound is `Nat`). -/
def idx_inv (st : QueueState) : Prop :=
  ∀ sl : Setlist, st.setlist = some sl → sl.songs ≠ [] → st.current_index < sl.songs.length

/-! ## Concrete fixtures -/

/-- A one-song setlist entry. -/
def songA : SetlistSong :=
  { id := "a", title := "A", artist := "X", duration := 100, notes := none,
    transpose := 0, key := none, bpm := none }

/-- One song, `loop=false`, `auto_advance=true`, `countdown=true`, gap 5. -/
def sl1 : Setlist :=
  { name := "S", description := none,
    settings := { auto_advance := true, gap_seconds := 5, loop := false,
                  shuffle := false, countdown := true },
    songs := [songA] }

/-- State with `sl1` loaded, at index 0, playing, no live monitor. -/
def s0 : QueueState :=
  { setlist := some sl1, current_index := 0, is_playing := true,
    auto_advance_task := none, live_tasks := [], next_task_id := 0,
    shuffle_order := [] }

/-- The state after `next_song` finishes the non-looping `sl1`. -/
def s9 : QueueState := (stepOp QOp.next s0).1

/-- Three songs of durations 180, 240, 200. -/
def songsD : List SetlistSong :=
  [{ songA with duration := 180 }, { songA with duration := 240 },
   { songA with duration := 200 }]

/-- The progress-accounting example setlist. -/
def sl6 : Setlist := { sl1 with songs := songsD }

/-- State with `sl6` loaded at `current_index = 2`. -/
def s6 : QueueState := { s0 with setlist := some sl6, current_index := 2 }

/-- A single entry covering seconds 0–10. -/
def e0 : Entry := { word := some ("hi"), start_time := 0, end_time := 10, chords := none }

/-- One section holding `e0`. -/
def secW : SongSection :=
  { name := "v", order := 0, start_time := 0, end_time := 10, entries := [e0] }

/-- A one-section test song at 120 BPM. -/
def songW : Song := { sections := [secW], bpm := 120 }

/-- The hit `get_entry_at_time` returns inside `e0`. -/
def eW : EntryHit := { entry := e0, sectionName := "v" }

/-- The freshly reset sync state. -/
def stW : SyncState :=
  { current_position := 0, current_entry := none, current_section := none,
    current_beat := 0, last_beat_time := 0 }

/-- Sync state already inside `e0`/`secW`. -/
def stW2 : SyncState := { stW with current_entry := some eW, current_section := some secW }

/-- An entry observer that raises. -/
def errCb : EntryHit → Except String Unit := fun _ => Except.error ("boom")

/-- A section observer that succeeds. -/
def okSCb : SongSection → Except String Unit := fun _ => Except.ok ()

/-- A beat observer that succeeds. -/
def okBCb : Nat → Except String Unit := fun _ => Except.ok ()

/-- A transport where delivery to connection 0 raises and the rest succeed. -/
def sendW : Nat → Except String Unit :=
  fun c => if c = 0 then Except.error ("fail") else Except.ok ()

/-! ## Helper lemmas -/

theorem foldl_add_shift (l : List Rat) : ∀ a : Rat, l.foldl (· + ·) a = a + l.foldl (· + ·) 0 := by
  induction l with
  | nil => intro a; simp
  | cons x xs ih =>
      intro a
      simp only [List.foldl_cons]
      rw [ih (a + x), ih (0 + x)]
      ring

theorem pySum_eq_sum (l : List Rat) : pySum l = l.sum := by
  induction l with
  | nil => rfl
  | cons x xs ih =>
      simp only [pySum, List.foldl_cons, List.sum_cons]
      rw [foldl_add_shift]
      simp only [pySum] at ih
      rw [ih]
      ring

theorem foldl_append_singleton {α β : Type} (f : α → β) (l : List α) :
    ∀ acc : List β, l.foldl (fun acc x => acc ++ [f x]) acc = acc ++ l.map f := by
  induction l with
  | nil => intro acc; simp
  | cons x xs ih => intro acc; simp [ih]

theorem countdown_events_length (next : Option SetlistSong) :
    ∀ (n : Nat) (t : Rat), (countdown_events next n t).length = n := by
  intro n
  induction n with
  | zero => intro t; rfl
  | succ k ih => intro t; simp [countdown_events, ih]

theorem countdown_events_getElem (next : Option SetlistSong) :
    ∀ (n i : Nat) (t : Rat), i < n →
      (countdown_events next n t)[i]? =
        some (t + (i : Rat), QEvent.gap_countdown (n - i) next) := by
  intro n
  induction n with
  | zero => intro i t h; omega
  | succ k ih =>
      intro i t h
      cases i with
      | zero => simp [countdown_events]
      | succ j =>
          simp only [countdown_events, List.getElem?_cons_succ]
          rw [ih j (t + 1) (by omega)]
          have h1 : ((j + 1 : Nat) : Rat) = (j : Rat) + 1 := by push_cast; ring
          have h2 : t + ((j : Rat) + 1) = t + 1 + (j : Rat) := by ring
          rw [h1, show k + 1 - (j + 1) = k - j from by omega, h2]

theorem matchRegex_head (cs : List Char) (r : List Char × List Char × Option (List Char))
    (h : matchRegex cs = some r) :
    ∃ c rest, cs = c :: rest ∧ ('A' ≤ c ∧ c ≤ 'G') := by
  cases cs with
  | nil => exact absurd h (by simp [matchRegex])
  | cons c rest =>
      refine ⟨c, rest, rfl, ?_⟩
      by_cases hc : 'A' ≤ c ∧ c ≤ 'G'
      · exact hc
      · exfalso
        simp only [matchRegex] at h
        rw [if_neg (by simpa using hc)] at h
        exact Option.noConfusion h

theorem bc_disconnected_eq (send : Nat → Except String Unit) :
    ∀ (l acc : List Nat),
      l.foldl (fun acc c =>
        match send c with
        | Except.ok _ => acc
        | Except.error _ => acc ++ [c]) acc
        = acc ++ l.filter (fun c => !(isOkB (send c))) := by
  intro l
  induction l with
  | nil => intro acc; simp
  | cons x xs ih =>
      intro acc
      simp only [List.foldl_cons, List.filter_cons]
      cases hx : send x with
      | ok u => simp [isOkB, hx, ih]
      | error m => simp [isOkB, hx, ih]

theorem erase_foldl_not_mem (x : Nat) :
    ∀ (ds ys : List Nat), (∀ d ∈ ds, d ≠ x) →
      ds.foldl (fun act c => act.erase c) (x :: ys)
        = x :: ds.foldl (fun act c => act.erase c) ys := by
  intro ds
  induction ds with
  | nil => intro ys _; rfl
  | cons d ds ih =>
      intro ys hne
      simp only [List.foldl_cons, List.erase_cons]
      rw [if_neg (by
        intro hdx
        exact hne d (List.mem_cons_self d ds) ((by simpa using hdx : x = d)).symm)]
      exact ih (ys.erase d) (fun q hq => hne q (List.mem_cons_of_mem d hq))

theorem erase_foldl_filter (p : Nat → Bool) :
    ∀ l : List Nat,
      (l.filter p).foldl (fun act c => act.erase c) l = l.filter (fun c => !(p c)) := by
  intro l
  induction l with
  | nil => rfl
  | cons x xs ih =>
      by_cases hp : p x = true
      · simp only [List.filter_cons, hp, if_pos, List.foldl_cons, List.erase_cons_head,
          Bool.not_eq_true']
        rw [ih]
        simp [hp]
      · have hp' : p x = false := by simpa using hp
        simp only [List.filter_cons, hp', Bool.false_eq_true, if_false, Bool.not_false, if_true]
        rw [erase_foldl_not_mem x (xs.filter p) xs (by
          intro d hd hdx
          subst hdx
          have := List.of_mem_filter hd
          simp [hp'] at this)]
        rw [ih]

theorem broadcast_eq_filter (send : Nat → Except String Unit) (conns : List Nat) :
    WebSocketManager.broadcast send conns = conns.filter (fun c => isOkB (send c)) := by
  unfold WebSocketManager.broadcast
  rw [bc_disconnected_eq, List.nil_append, erase_foldl_filter]
  simp

theorem cancel_auto_advance_fields (st : QueueState) :
    (QueueManager.cancel_auto_advance st).setlist = st.setlist ∧
    (QueueManager.cancel_auto_advance st).current_index = st.current_index ∧
    (QueueManager.cancel_auto_advance st).is_playing = st.is_playing := by
  unfold QueueManager.cancel_auto_advance
  cases st.auto_advance_task <;> simp

theorem play_current_fields (st : QueueState) :
    ((QueueManager.play_current st).1.setlist = st.setlist) ∧
    ((QueueManager.play_current st).1.current_index = st.current_index) := by
  unfold QueueManager.play_current
  cases hc : QueueManager.get_current_song st with
  | none => simp
  | some s =>
      cases hsl : st.setlist with
      | none => simp [hsl]
      | some sl =>
          by_cases ha : sl.settings.auto_advance = true
          · simp [hsl, ha]
          · simp [hsl, ha]

theorem countEntryChanges_append (a b : List SyncEvent) :
    countEntryChanges (a ++ b) = countEntryChanges a + countEntryChanges b := by
  simp [countEntryChanges, List.filter_append]

theorem update_entry_state (song : Song) (st : SyncState) (p : Rat) (e : EntryHit)
    (h : song.get_entry_at_time p = some e) :
    (SyncEngine.update song st p).1.current_entry = some e := by
  by_cases hc : song.get_entry_at_time p = st.current_entry
  · simp only [SyncEngine.update]
    rw [if_pos hc, ← hc, h]
  · simp only [SyncEngine.update]
    rw [if_neg hc, h]

theorem update_count_le_one (song : Song) (st : SyncState) (p : Rat) :
    countEntryChanges (SyncEngine.update song st p).2 ≤ 1 := by
  by_cases hE : song.get_entry_at_time p = st.current_entry <;>
  by_cases hS : song.get_section_at_time p = st.current_section <;>
  by_cases hB : (60 / (song.bpm : Rat) ≤ p - st.last_beat_time) <;>
  by_cases hI : (song.get_entry_at_time p).isSome = true <;>
  by_cases hJ : (song.get_section_at_time p).isSome = true <;>
  simp [SyncEngine.update, hE, hS, hB, hI, hJ, countEntryChanges]

theorem update_count_zero (song : Song) (st : SyncState) (p : Rat) (e : EntryHit)
    (h : song.get_entry_at_time p = some e) (hcur : st.current_entry = some e) :
    countEntryChanges (SyncEngine.update song st p).2 = 0 := by
  have hE : song.get_entry_at_time p = st.current_entry := by rw [h, hcur]
  by_cases hS : song.get_section_at_time p = st.current_section <;>
  by_cases hB : (60 / (song.bpm : Rat) ≤ p - st.last_beat_time) <;>
  by_cases hJ : (song.get_section_at_time p).isSome = true <;>
  simp [SyncEngine.update, hE, hS, hB, hJ, countEntryChanges]

theorem runUpdates_zero (song : Song) (e : EntryHit) :
    ∀ (ps : List Rat) (st : SyncState), st.current_entry = some e →
      (∀ p ∈ ps, song.get_entry_at_time p = some e) →
      countEntryChanges (runUpdates song st ps).2 = 0 := by
  intro ps
  induction ps with
  | nil => intro st _ _; simp [runUpdates, countEntryChanges]
  | cons p ps ih =>
      intro st hcur hall
      have hp := hall p (List.mem_cons_self p ps)
      simp only [runUpdates, countEntryChanges_append]
      rw [update_count_zero song st p e hp hcur,
        ih (SyncEngine.update song st p).1 (update_entry_state song st p e hp)
          (fun q hq => hall q (List.mem_cons_of_mem p hq))]

theorem play_current_idx_inv (s : QueueState) (hs : idx_inv s) :
    idx_inv (QueueManager.play_current s).1 := by
  intro sl h hne
  have hf := play_current_fields s
  rw [hf.2]
  exact hs sl (hf.1.symm.trans h) hne

theorem play_current_idx_lt (s : QueueState) (sl : Setlist) (hsl : s.setlist = some sl)
    (hlt : s.current_index < sl.songs.length) :
    idx_inv (QueueManager.play_current s).1 := by
  intro sl' h hne
  have hf := play_current_fields s
  rw [hf.2]
  obtain rfl := Option.some.inj (hsl.symm.trans (hf.1.symm.trans h))
  exact hlt

theorem stop_fields (st : QueueState) :
    (QueueManager.stop st).setlist = st.setlist ∧
    (QueueManager.stop st).current_index = st.current_index := by
  have hf := cancel_auto_advance_fields { st with is_playing := false }
  exact ⟨hf.1, hf.2.1⟩

theorem idx_inv_set_index (s : QueueState) (i : Nat)
    (hset : ∀ sl : Setlist, s.setlist = some sl → sl.songs ≠ [] → i < sl.songs.length) :
    idx_inv { s with current_index := i } :=
  fun sl h hne => hset sl h hne

theorem s0_idx_inv : idx_inv s0 := by
  intro sl h hne
  simp [s0] at h
  subst h
  decide

/-! ## Claim theorems -/

/-- C5, counterexample: chord parsing is not case-insensitive for the root
and bass characters — `"c#m7"` and `"g/b"` fail to parse while their
upper-case spellings `"C#m7"` and `"G/B"` parse, so changing only the case
of the root or bass changes the parse result. -/
theorem claim5_counterexample :
    Chord.from_string ("c#m7") = none ∧
    Chord.from_string ("C#m7") = some { root := ChordRoot.Cs, suffix := "m7", bass := none } ∧
    Chord.from_string ("g/b") = none ∧
    Chord.from_string ("G/B") = some { root := ChordRoot.G, suffix := "", bass := some ChordRoot.B } := by
  decide

/-- C5, amended: `Chord.from_string` is case-sensitive at the token level —
it succeeds only when the (stripped) chord text starts with an upper-case
root letter `A`..`G`; only the inner note lookup `ChordRoot.from_string`
upper-cases its input. -/
theorem claim5_case_sensitive :
    ∀ (cs : List Char) (ch : Chord), Chord.fromChars cs = some ch →
      pyStrip cs ≠ [] ∧ ∀ c : Char, (pyStrip cs).head? = some c → ('A' ≤ c ∧ c ≤ 'G') := by
  intro cs ch h
  unfold Chord.fromChars at h
  cases hm : matchRegex (pyStrip cs) with
  | none => rw [hm] at h; exact Option.noConfusion h
  | some r =>
      obtain ⟨c, rest, hcs, hc⟩ := matchRegex_head (pyStrip cs) r hm
      constructor
      · rw [hcs]; simp
      · intro c' hc'
        rw [hcs] at hc'
        simp only [List.head?_cons, Option.some.injEq] at hc'
        rw [← hc']
        exact hc

/-- C5, witness for the amended claim at `"C#m7"`. -/
theorem claim5_witness :
    Chord.from_string ("C#m7") = some { root := ChordRoot.Cs, suffix := "m7", bass := none } ∧
    ('A' ≤ 'C' ∧ 'C' ≤ 'G') :=
  ⟨by decide,
   (claim5_case_sensitive (("C#m7" : String).data)
      { root := ChordRoot.Cs, suffix := "m7", bass := none } (by decide)).2 'C' (by decide)⟩

/-- C6: for every loaded setlist, `get_progress` reports elapsed time equal
to the sum of the durations of the songs strictly before `current_index`
plus `current_index * gap_seconds`. -/
theorem claim6_progress_elapsed :
    ∀ (st : QueueState) (sl : Setlist), st.setlist = some sl →
      (QueueManager.get_progress st).elapsed_time =
        ((sl.songs.take st.current_index).map (fun s => s.duration)).sum +
          (st.current_index : Rat) * (sl.settings.gap_seconds : Rat) := by
  intro st sl h
  simp [QueueManager.get_progress, h, pySum_eq_sum]

/-- C6, witness: durations `[180, 240, 200]`, gap 5, index 2 give 430. -/
theorem claim6_witness :
    s6.setlist = some sl6 ∧ (QueueManager.get_progress s6).elapsed_time = 430 := by
  refine ⟨rfl, ?_⟩
  rw [claim6_progress_elapsed s6 sl6 rfl]
  simp [s6, s0, sl6, sl1, songsD, songA]
  norm_num

/-- C8: `_transpose_chord_string` splits a multi-chord string on whitespace
and maps each token independently (the Python append loop equals a `map`);
every token whose parse fails appears verbatim at its position of the
mapped list, which is re-joined with single spaces; the function is total,
so no exception escapes. -/
theorem claim8_passthrough :
    ∀ (t : Int) (ps : Bool) (s : String), s.data ≠ [] →
      (transpose_chord_string t ps (some s) =
        some (String.mk (List.intercalate ([' '])
          ((pySplit s.data []).map (transposeToken t ps))))) ∧
      (∀ (i : Nat) (tok : List Char), (pySplit s.data [])[i]? = some tok →
        Chord.fromChars tok = none →
        ((pySplit s.data []).map (transposeToken t ps))[i]? = some tok) := by
  intro t ps s h
  constructor
  · simp only [transpose_chord_string]
    rw [if_neg h, foldl_append_singleton]
    simp
  · intro i tok h1 h2
    rw [List.getElem?_map, h1]
    simp [transposeToken, h2]

/-- C8, witness: transposing `"Am7 Xx9 G"` by 2 keeps the unparsable `Xx9`
verbatim in place. -/
theorem claim8_witness :
    ("Am7 Xx9 G" : String).data ≠ [] ∧
    transpose_chord_string 2 true (some ("Am7 Xx9 G")) = some ("Bm7 Xx9 A") := by
  refine ⟨by decide, ?_⟩
  rw [(claim8_passthrough 2 true ("Am7 Xx9 G") (by decide)).1]
  decide

/-- C9: when `current_index` is at or past the end of a loaded setlist
(reachable after a non-looping setlist finishes), `get_current_song`
returns `None` via its explicit bounds guard instead of indexing. -/
theorem claim9_guarded_none :
    ∀ (st : QueueState) (sl : Setlist), st.setlist = some sl →
      sl.songs.length ≤ st.current_index →
      QueueManager.get_current_song st = none := by
  intro st sl h hle
  simp [QueueManager.get_current_song, h, hle]

/-- C9, witness: the state right after the one-song non-looping setlist
finishes has `current_index = len(songs)` and no current song. -/
theorem claim9_witness :
    s9.setlist = some sl1 ∧ sl1.songs.length ≤ s9.current_index ∧
    QueueManager.get_current_song s9 = none :=
  ⟨by decide, by decide, claim9_guarded_none s9 sl1 (by decide) (by decide)⟩

/-- C2, counterexample: `play_current` does not cancel a pre-existing
monitor task — calling it twice in succession on a loaded setlist with
auto-advance enabled leaves two live monitor tasks, not one. -/
theorem claim2_counterexample :
    ((QueueManager.play_current ((QueueManager.play_current s0).1)).1.live_tasks.length = 2) ∧
    ((QueueManager.play_current ((QueueManager.play_current s0).1)).1.live_tasks.length ≠ 1) := by
  decide

/-- C2, amended: with a current song and auto-advance enabled,
`play_current` spawns a fresh monitor task and repoints the task reference
at it while every previously live monitor task stays live (nothing is
cancelled), so each call adds one live monitor. -/
theorem claim2_monitor_spawn :
    ∀ (st : QueueState) (sl : Setlist), st.setlist = some sl →
      sl.settings.auto_advance = true →
      (QueueManager.get_current_song st).isSome = true →
      ((QueueManager.play_current st).1.live_tasks = st.next_task_id :: st.live_tasks) ∧
      ((QueueManager.play_current st).1.auto_advance_task = some st.next_task_id) ∧
      ((QueueManager.play_current st).1.live_tasks.length = st.live_tasks.length + 1) := by
  intro st sl h ha hs
  obtain ⟨song, hc⟩ := Option.isSome_iff_exists.mp hs
  simp [QueueManager.play_current, hc, h, ha]

/-- C2, witness for the amended claim at the loaded one-song setlist. -/
theorem claim2_witness :
    ((QueueManager.play_current s0).1.live_tasks = s0.next_task_id :: s0.live_tasks) ∧
    ((QueueManager.play_current s0).1.auto_advance_task = some s0.next_task_id) :=
  ⟨(claim2_monitor_spawn s0 sl1 rfl rfl (by decide)).1,
   (claim2_monitor_spawn s0 sl1 rfl rfl (by decide)).2.1⟩

/-- C3, counterexample: an exception raised by the entry observer during
`SyncEngine.update` position processing is not caught — it propagates out
of the update. -/
theorem claim3_counterexample :
    songW.get_entry_at_time 1 = some eW ∧
    stW.current_entry = none ∧
    SyncEngine.updateCb songW errCb okSCb okBCb stW 1 = Except.error ("boom") :=
  ⟨by decide, rfl, rfl⟩

/-- C3, amended: the Event Sink broadcast isolates failures — a connection
whose delivery succeeds is kept even when another connection's delivery
raises, and a failing connection is removed — but the Sync Engine does not:
an exception from the entry observer propagates out of `update`. -/
theorem claim3_isolation :
    (∀ (song : Song) (onE : EntryHit → Except String Unit)
       (onS : SongSection → Except String Unit) (onB : Nat → Except String Unit)
       (st : SyncState) (position : Rat) (e : EntryHit) (m : String),
       song.get_entry_at_time position = some e →
       some e ≠ st.current_entry →
       onE e = Except.error m →
       SyncEngine.updateCb song onE onS onB st position = Except.error m) ∧
    (∀ (send : Nat → Except String Unit) (conns : List Nat) (c : Nat), c ∈ conns →
       (isOkB (send c) = true → c ∈ WebSocketManager.broadcast send conns) ∧
       (isOkB (send c) = false → c ∉ WebSocketManager.broadcast send conns)) := by
  constructor
  · intro song onE onS onB st position e m h1 h2 h3
    simp only [SyncEngine.updateCb, h1]
    rw [if_neg h2]
    simp [h3, Except.map]
  · intro send conns c hmem
    rw [broadcast_eq_filter]
    constructor
    · intro hok
      exact List.mem_filter.mpr ⟨hmem, hok⟩
    · intro hbad hcmem
      have hh := (List.mem_filter.mp hcmem).2
      rw [hbad] at hh
      exact Bool.noConfusion hh

/-- C3, witness: the raising entry observer aborts the update with its
error, while in a broadcast to connections `[0, 1]` where delivery to `0`
raises, connection `1` still receives and stays, and `0` is removed. -/
theorem claim3_witness :
    (SyncEngine.updateCb songW errCb okSCb okBCb stW 1 = Except.error ("boom")) ∧
    (1 ∈ WebSocketManager.broadcast sendW [0, 1]) ∧
    (0 ∉ WebSocketManager.broadcast sendW [0, 1]) :=
  ⟨claim3_isolation.1 songW errCb okSCb okBCb stW 1 eW ("boom") (by decide) (by decide) rfl,
   (claim3_isolation.2 sendW [0, 1] 1 (by decide)).1 rfl,
   (claim3_isolation.2 sendW [0, 1] 0 (by decide)).2 rfl⟩

/-- C4, counterexample: with countdown enabled and `gap_seconds = 5`, the
`next_song` call fires 10 seconds after the end-of-song threshold is
detected — the countdown itself takes `gap_seconds` and the handler then
sleeps `gap_seconds` again — which is not within the poll-interval
tolerance of `gap_seconds`. -/
theorem claim4_counterexample :
    advance_triggered 100 100 = true ∧
    s0.setlist = some sl1 ∧ sl1.settings.countdown = true ∧
    sl1.settings.gap_seconds = 5 ∧
    (auto_advance_fire s0).2 = 10 ∧
    ¬ ((auto_advance_fire s0).2 - (sl1.settings.gap_seconds : Rat) ≤ pollInterval) := by
  refine ⟨?_, rfl, rfl, rfl, ?_, ?_⟩
  · simp only [advance_triggered, endThreshold, Bool.and_eq_true, decide_eq_true_eq]
    norm_num
  · simp [auto_advance_fire, s0, sl1]
    norm_num
  · simp [auto_advance_fire, s0, sl1, pollInterval]
    norm_num

/-- C4, amended: once the threshold is detected with countdown enabled, the
handler emits exactly `gap_seconds` countdown events, the `i`-th at `i`
seconds carrying the next song's identity and the remaining count, each
followed by a one-second suspension, and `next_song` fires at
`2 * gap_seconds` seconds after detection (countdown plus the gap sleep),
not within a poll interval of `gap_seconds`. -/
theorem claim4_countdown_trace :
    ∀ (st : QueueState) (sl : Setlist) (position duration : Rat),
      advance_triggered position duration = true →
      st.setlist = some sl → sl.settings.countdown = true →
      ((auto_advance_fire st).1.length = sl.settings.gap_seconds) ∧
      (∀ i : Nat, i < sl.settings.gap_seconds →
        (auto_advance_fire st).1[i]? =
          some ((i : Rat),
            QEvent.gap_countdown (sl.settings.gap_seconds - i)
              (QueueManager.get_next_song st))) ∧
      ((auto_advance_fire st).2 = 2 * (sl.settings.gap_seconds : Rat)) := by
  intro st sl position duration _ h hcd
  refine ⟨?_, ?_, ?_⟩
  · simp [auto_advance_fire, h, hcd, countdown_events_length]
  · intro i hi
    simp only [auto_advance_fire, h, hcd, if_true]
    rw [countdown_events_getElem _ _ i 0 hi]
    simp
  · simp [auto_advance_fire, h, hcd]
    ring

/-- C4, witness: the concrete one-song setlist with gap 5. -/
theorem claim4_witness :
    advance_triggered 100 100 = true ∧
    (auto_advance_fire s0).1.length = sl1.settings.gap_seconds ∧
    (auto_advance_fire s0).2 = 2 * (sl1.settings.gap_seconds : Rat) := by
  have ht : advance_triggered 100 100 = true := by
    simp only [advance_triggered, endThreshold, Bool.and_eq_true, decide_eq_true_eq]
    norm_num
  exact ⟨ht, (claim4_countdown_trace s0 sl1 100 100 ht rfl rfl).1,
    (claim4_countdown_trace s0 sl1 100 100 ht rfl rfl).2.2⟩

/-- C7: the sync engine is edge-triggered — feeding any position sequence
that stays inside one entry (every position resolves to the same entry
value) produces at most one `entryChange` notification, emitted on the
first crossing into the entry. -/
theorem claim7_edge_triggered :
    ∀ (song : Song) (st : SyncState) (e : EntryHit) (ps : List Rat),
      List.Chain' (· < ·) ps →
      (∀ p ∈ ps, song.get_entry_at_time p = some e) →
      countEntryChanges (runUpdates song st ps).2 ≤ 1 := by
  intro song st e ps _ hall
  cases ps with
  | nil => simp [runUpdates, countEntryChanges]
  | cons p ps =>
      have h1 := hall p (List.mem_cons_self p ps)
      have hz := runUpdates_zero song e ps (SyncEngine.update song st p).1
        (update_entry_state song st p e h1) (fun q hq => hall q (List.mem_cons_of_mem p hq))
      have hle := update_count_le_one song st p
      simp only [runUpdates, countEntryChanges_append]
      omega

/-- C7, witness: the strictly increasing positions 1, 2, 3 inside the
single entry of the test song cause at most one `entryChange`. -/
theorem claim7_witness :
    countEntryChanges (runUpdates songW stW [1, 2, 3]).2 ≤ 1 :=
  claim7_edge_triggered songW stW eW [1, 2, 3]
    (by simp only [List.chain'_cons, List.chain'_singleton, and_true]; norm_num)
    (by decide)

/-- C10: `SyncEngine.update` never delivers a `None` payload to the entry or
section observers; when the position moves into a gap (the entry resolves to
`None` while one was current), the engine records the cleared entry but
emits no `entryChange` notification at all. -/
theorem claim10_no_none_callback :
    ∀ (song : Song) (st : SyncState) (position : Rat),
      (∀ x, SyncEvent.entryChange x ∈ (SyncEngine.update song st position).2 →
        x.isSome = true) ∧
      (∀ y, SyncEvent.sectionChange y ∈ (SyncEngine.update song st position).2 →
        y.isSome = true) ∧
      (song.get_entry_at_time position = none → st.current_entry ≠ none →
        ((SyncEngine.update song st position).1.current_entry = none ∧
         ∀ x, SyncEvent.entryChange x ∉ (SyncEngine.update song st position).2)) := by
  intro song st position
  by_cases hE : song.get_entry_at_time position = st.current_entry <;>
  by_cases hS : song.get_section_at_time position = st.current_section <;>
  by_cases hB : (60 / (song.bpm : Rat) ≤ position - st.last_beat_time) <;>
  by_cases hI : (song.get_entry_at_time position).isSome = true <;>
  by_cases hJ : (song.get_section_at_time position).isSome = true <;>
  simp_all [SyncEngine.update]

/-- C10, witness: moving from inside the entry to position 20 (a gap)
clears the current entry without an `entryChange` notification. -/
theorem claim10_witness :
    (SyncEngine.update songW stW2 20).1.current_entry = none :=
  ((claim10_no_none_callback songW stW2 20).2.2 (by decide) (by decide)).1

/-- C1, counterexample: on a loaded non-empty one-song setlist with
`loop=false`, `next_song` (the `advanceToNext` of the spec) leaves
`current_index = len(songs) = 1` after emitting `SetlistFinished`, so the
invariant `current_index < len(songs)` does not survive the operation. -/
theorem claim1_counterexample :
    s0.setlist = some sl1 ∧ sl1.songs ≠ [] ∧ idx_inv s0 ∧
    (stepOp QOp.next s0).1.setlist = some sl1 ∧
    (stepOp QOp.next s0).1.current_index = sl1.songs.length ∧
    ¬ ((stepOp QOp.next s0).1.current_index < sl1.songs.length) ∧
    (stepOp QOp.next s0).1.is_playing = false ∧
    QEvent.setlist_finished sl1.songs.length ∈ (stepOp QOp.next s0).2 :=
  ⟨rfl, by decide, s0_idx_inv, by decide, by decide, by decide, by decide, by decide⟩

/-- C1, amended: every scheduler operation preserves the index bound
`current_index < len(songs)` on a loaded non-empty setlist, except the
finishing case of `next_song`: when no next song exists and loop is
disabled, it sets `is_playing=false`, emits `SetlistFinished`, and leaves
`current_index = len(songs)` — one past the claimed range (where
`get_current_song` returns `None`). -/
theorem claim1_index_bound :
    ∀ (op : QOp) (st : QueueState), idx_inv st →
      idx_inv (stepOp op st).1 ∨
      (op = QOp.next ∧ ∃ sl : Setlist, st.setlist = some sl ∧
        sl.settings.loop = false ∧
        (stepOp op st).1.current_index = sl.songs.length ∧
        (stepOp op st).1.is_playing = false ∧
        QEvent.setlist_finished sl.songs.length ∈ (stepOp op st).2) := by
  intro op st hinv
  cases op with
  | load sl order =>
      left
      intro sl' h hne
      simp only [stepOp, QueueManager.load_setlist] at h ⊢
      obtain rfl := Option.some.inj h
      exact List.length_pos.mpr hne
  | play =>
      left
      exact play_current_idx_inv st hinv
  | prev =>
      left
      cases hsl : st.setlist with
      | none =>
          intro sl' h hne
          simp only [stepOp, QueueManager.previous_song, hsl] at h
          exact Option.noConfusion h
      | some sl0 =>
          have hc := cancel_auto_advance_fields st
          by_cases h0 : st.current_index = 0
          · intro sl' h hne
            simp [stepOp, QueueManager.previous_song, hsl, h0] at h ⊢
            obtain rfl := h
            have := hinv sl0 hsl hne
            omega
          · have hstep : stepOp QOp.prev st =
                QueueManager.play_current
                  { QueueManager.cancel_auto_advance st with
                      current_index := (QueueManager.cancel_auto_advance st).current_index - 1 } := by
              simp [stepOp, QueueManager.previous_song, hsl, h0]
            rw [hstep]
            refine play_current_idx_inv _ (idx_inv_set_index _ _ ?_)
            intro sl' h hne
            obtain rfl := Option.some.inj (hsl.symm.trans (hc.1.symm.trans h))
            rw [hc.2.1]
            have := hinv sl0 hsl hne
            omega
  | jump i =>
      left
      cases hsl : st.setlist with
      | none =>
          intro sl' h hne
          simp only [stepOp, QueueManager.jump_to_song, hsl] at h
          exact Option.noConfusion h
      | some sl0 =>
          have hc := cancel_auto_advance_fields st
          by_cases hle : sl0.songs.length ≤ i
          · intro sl' h hne
            simp [stepOp, QueueManager.jump_to_song, hsl, hle] at h ⊢
            obtain rfl := h
            exact hinv sl0 hsl hne
          · have hstep : stepOp (QOp.jump i) st =
                QueueManager.play_current
                  { QueueManager.cancel_auto_advance st with current_index := i } := by
              simp [stepOp, QueueManager.jump_to_song, hsl, hle]
            rw [hstep]
            refine play_current_idx_inv _ (idx_inv_set_index _ _ ?_)
            intro sl' h hne
            obtain rfl := Option.some.inj (hsl.symm.trans (hc.1.symm.trans h))
            omega
  | stop =>
      left
      intro sl' h hne
      have hf := stop_fields st
      replace h : (QueueManager.stop st).setlist = some sl' := h
      show (QueueManager.stop st).current_index < sl'.songs.length
      rw [hf.2]
      exact hinv sl' (hf.1.symm.trans h) hne
  | next =>
      cases hsl : st.setlist with
      | none =>
          left
          intro sl' h hne
          simp only [stepOp, QueueManager.next_song, hsl] at h
          exact Option.noConfusion h
      | some sl0 =>
          have hc := cancel_auto_advance_fields st
          by_cases hlen : sl0.songs.length ≤ st.current_index + 1
          · by_cases hloop : sl0.settings.loop = true
            · left
              have hstep : stepOp QOp.next st =
                  QueueManager.play_current
                    { QueueManager.cancel_auto_advance st with current_index := 0 } := by
                simp [stepOp, QueueManager.next_song, hsl, hc.2.1, hlen, hloop]
              rw [hstep]
              refine play_current_idx_inv _ (idx_inv_set_index _ _ ?_)
              intro sl' h hne
              obtain rfl := Option.some.inj (hsl.symm.trans (hc.1.symm.trans h))
              exact List.length_pos.mpr hne
            · by_cases hemp : sl0.songs = []
              · left
                intro sl' h hne
                have hstep : (stepOp QOp.next st).1 =
                    { QueueManager.cancel_auto_advance st with
                        current_index := (QueueManager.cancel_auto_advance st).current_index + 1,
                        is_playing := false } := by
                  simp [stepOp, QueueManager.next_song, hsl, hc.2.1, hlen, hloop]
                rw [hstep] at h
                replace h : (QueueManager.cancel_auto_advance st).setlist = some sl' := h
                obtain rfl := Option.some.inj (hsl.symm.trans (hc.1.symm.trans h))
                exact absurd hemp hne
              · right
                have hidx := hinv sl0 hsl hemp
                have hstep : stepOp QOp.next st =
                    ({ QueueManager.cancel_auto_advance st with
                        current_index := (QueueManager.cancel_auto_advance st).current_index + 1,
                        is_playing := false },
                     [QEvent.setlist_finished sl0.songs.length]) := by
                  simp [stepOp, QueueManager.next_song, hsl, hc.2.1, hlen, hloop]
                refine ⟨rfl, sl0, rfl, by simpa using hloop, ?_, ?_, ?_⟩
                · rw [hstep]
                  show (QueueManager.cancel_auto_advance st).current_index + 1 = sl0.songs.length
                  rw [hc.2.1]
                  omega
                · rw [hstep]
                · rw [hstep]
                  exact List.mem_singleton_self _
          · left
            have hstep : stepOp QOp.next st =
                QueueManager.play_current
                  { QueueManager.cancel_auto_advance st with
                      current_index := (QueueManager.cancel_auto_advance st).current_index + 1 } := by
              simp [stepOp, QueueManager.next_song, hsl, hc.2.1, hlen]
            rw [hstep]
            refine play_current_idx_inv _ (idx_inv_set_index _ _ ?_)
            intro sl' h hne
            obtain rfl := Option.some.inj (hsl.symm.trans (hc.1.symm.trans h))
            rw [hc.2.1]
            omega

/-- C1, witness: `stop` applied to the loaded one-song setlist preserves
the index bound. -/
theorem claim1_witness : idx_inv ((stepOp QOp.stop s0).1) :=
  (claim1_index_bound QOp.stop s0 s0_idx_inv).resolve_right (fun hcon => nomatch hcon.1)

end MLC
